import Mathlib

/-!
Shallow embedding of the Kiln datamodel core
(`libs/core/kiln_ai/datamodel/__init__.py`) and proofs about its
validators and the dataset-split builder.

Python floats are modelled as exact rationals (`ℚ`); Python's `round`
(banker's rounding, half to even) is `pyRound`; Python dicts are
modelled as association lists built by in-place-overwriting insertion
(`dinsert`); raising a `ValueError` is modelled as a validator
returning `false` (or a function returning `none`).
-/

namespace Kiln

/-- The four rating scales of `TaskOutputRatingType`. -/
inductive TaskOutputRatingType where
  | five_star
  | pass_fail
  | pass_fail_critical
  | custom
deriving DecidableEq

/-- `RequirementRating`: a value plus its declared rating type. -/
structure RequirementRating where
  value : ℚ
  type : TaskOutputRatingType
deriving DecidableEq

/-- Python `float.is_integer` on an exact rational. -/
def ratingIsInteger (q : ℚ) : Bool := q.den == 1

/-- `TaskOutputRating._validate_five_star`: the rating must be present,
an integral float, and between 1 and 5. -/
def validate_five_star (rating : Option ℚ) : Bool :=
  match rating with
  | none => false
  | some q => ratingIsInteger q && decide (1 ≤ q) && decide (q ≤ 5)

/-- `TaskOutputRating._validate_pass_fail`: present, integral, and 0 or 1. -/
def validate_pass_fail (rating : Option ℚ) : Bool :=
  match rating with
  | none => false
  | some q => ratingIsInteger q && (q == 0 || q == 1)

/-- `TaskOutputRating._validate_pass_fail_critical`: present, integral,
and -1, 0 or 1. -/
def validate_pass_fail_critical (rating : Option ℚ) : Bool :=
  match rating with
  | none => false
  | some q => ratingIsInteger q && (q == -1 || q == 0 || q == 1)

/-- `TaskOutputRating._validate_rating`: dispatch on the rating type;
the `custom` type has no branch and accepts anything. -/
def validate_rating_value (t : TaskOutputRatingType) (rating : Option ℚ) : Bool :=
  match t with
  | .five_star => validate_five_star rating
  | .pass_fail => validate_pass_fail rating
  | .pass_fail_critical => validate_pass_fail_critical rating
  | .custom => true

/-- `TaskOutputRating`: overall type, optional overall value, and the
per-requirement ratings (requirement id → typed rating). -/
structure TaskOutputRating where
  type : TaskOutputRatingType
  value : Option ℚ
  requirement_ratings : List (String × RequirementRating)
deriving DecidableEq

/-- `TaskOutputRating.validate_rating`: the optional overall value is
checked against the overall type when present, and every requirement
rating is checked against its own declared type. -/
def TaskOutputRating.validate_rating (r : TaskOutputRating) : Bool :=
  (match r.value with
   | none => true
   | some v => validate_rating_value r.type (some v)) &&
  r.requirement_ratings.all (fun e => validate_rating_value e.2.type (some e.2.value))

/-- A value of the incoming `requirement_ratings` map before validation:
either a bare number (legacy format) or a typed rating object. -/
inductive ReqRatingValue where
  | raw (v : ℚ)
  | typed (r : RequirementRating)
deriving DecidableEq

/-- Whether a pre-validation map value is a bare number
(`isinstance(v, (int, float))`). -/
def ReqRatingValue.isRaw : ReqRatingValue → Bool
  | .raw _ => true
  | .typed _ => false

/-- `TaskOutputRating.upgrade_old_format`: when the map is non-empty and
every value is a bare number, rewrite each entry to
`{value: number, type: five_star}`; otherwise leave the data unchanged. -/
def upgrade_old_format (m : List (String × ReqRatingValue)) :
    List (String × ReqRatingValue) :=
  if !m.isEmpty && m.all (fun e => e.2.isRaw) then
    m.map (fun e =>
      match e.2 with
      | .raw v => (e.1, ReqRatingValue.typed ⟨v, TaskOutputRatingType.five_star⟩)
      | t => (e.1, t))
  else m

/-- `TaskOutput`: the output text and its optional rating (the `source`
field plays no role in the claims below). -/
structure TaskOutput where
  output : String
  rating : Option TaskOutputRating
deriving DecidableEq

/-- `TaskRun.validate_repaired_output`: a repaired output may not carry a
rating, and `repair_instructions` / `repaired_output` must be both
present or both absent. -/
def validate_repaired_output (repair_instructions : Option String)
    (repaired_output : Option TaskOutput) : Bool :=
  (match repaired_output with
   | none => true
   | some o => o.rating.isNone) &&
  !(repair_instructions.isNone && repaired_output.isSome) &&
  !(repair_instructions.isSome && repaired_output.isNone)

/-- `TaskRun.validate_tags`: every tag must be non-empty (`if not tag`)
and must not contain the space character (`if " " in tag`). -/
def validate_tags (tags : List String) : Bool :=
  tags.all (fun t => !t.data.isEmpty && !t.data.contains ' ')

/-- The parent `Task`, reduced to what the run validators consume: its
optional input and output JSON schemas, each modelled as the predicate
"this string parses as JSON and conforms to the schema"
(`json.loads` + `validate_schema` combined). -/
structure TaskSchemas where
  input_json_schema : Option (String → Bool)
  output_json_schema : Option (String → Bool)

/-- The mutable state of a `TaskRun` instance that the format validators
read and write: the current `input`, the current `output`, and the
`_last_validated_input` / `_last_validated_output` caches (a `none`
cache models the attribute being absent, i.e. `hasattr` false). -/
structure RunState where
  input : String
  output : TaskOutput
  lastValInput : Option String
  lastValOutput : Option String
deriving DecidableEq

/-- `TaskRun.validate_input_format`. Returns `none` when the validator
raises, otherwise the updated state together with whether the expensive
schema validation (`validate_schema`) was invoked. When loading from
file the current input is marked validated without checks; an input
equal to the cached last-validated value skips validation; an absent
parent task defers validation; otherwise the input is checked against
the task's input schema (when one is declared) and the cache updated. -/
def validate_input_format (loading : Bool) (task : Option TaskSchemas)
    (r : RunState) : Option (RunState × Bool) :=
  if loading then some ({r with lastValInput := some r.input}, false)
  else if r.lastValInput = some r.input then some (r, false)
  else
    match task with
    | none => some (r, false)
    | some t =>
      match t.input_json_schema with
      | none => some ({r with lastValInput := some r.input}, false)
      | some check =>
        if check r.input then some ({r with lastValInput := some r.input}, true)
        else none

/-- `TaskRun.validate_output_format`, symmetric to the input validator
but keyed on `output.output` and the task's output schema (the inner
`TaskOutput.validate_output_format` call only runs `validate_schema`
when `output_json_schema` is set). -/
def validate_output_format (loading : Bool) (task : Option TaskSchemas)
    (r : RunState) : Option (RunState × Bool) :=
  if loading then some ({r with lastValOutput := some r.output.output}, false)
  else if r.lastValOutput = some r.output.output then some (r, false)
  else
    match task with
    | none => some (r, false)
    | some t =>
      match t.output_json_schema with
      | none => some ({r with lastValOutput := some r.output.output}, false)
      | some check =>
        if check r.output.output then
          some ({r with lastValOutput := some r.output.output}, true)
        else none

/-- `DatasetSplitDefinition`: a split name and its percentage. -/
structure DatasetSplitDefinition where
  name : String
  percentage : ℚ
deriving DecidableEq

/-- Python `math.isclose(a, b, rel_tol=1e-9)` (default `abs_tol=0`):
`abs(a-b) <= rel_tol * max(abs(a), abs(b))`. -/
def isclose (a b : ℚ) : Bool :=
  decide (|a - b| ≤ 1 / 1000000000 * max |a| |b|)

/-- `DatasetSplit.validate_split_percentages`: the percentages of the
split definitions must sum to 1.0 up to `math.isclose`. -/
def validate_split_percentages (splits : List DatasetSplitDefinition) : Bool :=
  isclose ((splits.map (fun s => s.percentage)).sum) 1

/-- Modelled from the spec: `KilnBaseModel` (in `basemodel.py`, which is
not part of the provided sources) re-runs model validators whenever a
field is assigned, so the split-percentage invariant is "checked
independently as a standing invariant on `DatasetSplit`, both at
construction and wherever split lists are mutated". Mutating the splits
list therefore succeeds exactly when the new list passes
`validate_split_percentages`. -/
def mutate_splits (newSplits : List DatasetSplitDefinition) :
    Option (List DatasetSplitDefinition) :=
  if validate_split_percentages newSplits then some newSplits else none

/-- `DataSourceType`: a datum was produced by a human or by a model. -/
inductive DataSourceType where
  | human
  | synthetic
deriving DecidableEq

/-- The value types a data-source property may carry (`str | int | float`). -/
inductive PropVal where
  | vstr (s : String)
  | vint (n : ℤ)
  | vfloat (q : ℚ)
deriving DecidableEq

/-- The declared type of a registered property (`DataSourceProperty.type`). -/
inductive PropValType where
  | tstr
  | tint
  | tfloat
deriving DecidableEq

/-- Python `isinstance(value, declared_type)` for property values. -/
def propTypeMatches : PropValType → PropVal → Bool
  | .tstr, .vstr _ => true
  | .tint, .vint _ => true
  | .tfloat, .vfloat _ => true
  | _, _ => false

/-- `DataSourceProperty`: one entry of the property registry. -/
structure DataSourceProperty where
  name : String
  type : PropValType
  required_for : List DataSourceType
  not_allowed_for : List DataSourceType

/-- `DataSource._data_source_properties`: the fixed property registry. -/
def data_source_properties : List DataSourceProperty :=
  [⟨"created_by", .tstr, [.human], [.synthetic]⟩,
   ⟨"model_name", .tstr, [.synthetic], [.human]⟩,
   ⟨"model_provider", .tstr, [.synthetic], [.human]⟩,
   ⟨"adapter_name", .tstr, [.synthetic], [.human]⟩,
   ⟨"prompt_builder_name", .tstr, [], [.human]⟩,
   ⟨"prompt_id", .tstr, [], [.human]⟩]

/-- Dictionary lookup over the `properties` map (keys are unique in a
Python dict, so first match is the binding). -/
def plookup : List (String × PropVal) → String → Option PropVal
  | [], _ => none
  | e :: rest, k => if e.1 = k then some e.2 else plookup rest k

/-- `DataSource.validate_properties`: for every registry entry, a present
property must have the declared type; a property required for the source
type must be present; otherwise, a property not allowed for the source
type must be absent. Unregistered properties are not inspected. -/
def validate_properties (t : DataSourceType)
    (props : List (String × PropVal)) : Bool :=
  data_source_properties.all (fun prop =>
    (match plookup props prop.name with
     | some v => propTypeMatches prop.type v
     | none => true) &&
    (if prop.required_for.contains t then (plookup props prop.name).isSome
     else !(prop.not_allowed_for.contains t && (plookup props prop.name).isSome)))

/-- `DataSource.validate_no_empty_properties`: no string-valued property
may be the empty string. -/
def validate_no_empty_properties (props : List (String × PropVal)) : Bool :=
  props.all (fun e =>
    match e.2 with
    | .vstr s => !s.data.isEmpty
    | _ => true)

/-- The conjunction of the `DataSource` property validators: construction
succeeds exactly when both pass. -/
def validateDataSource (t : DataSourceType)
    (props : List (String × PropVal)) : Bool :=
  validate_properties t props && validate_no_empty_properties props

/-- `DatasetSplit.missing_count`: raises (`none`) when the split has no
resolvable parent task; otherwise the size of the set difference between
the union of the ids referenced in `split_contents` and the parent
task's current run ids. -/
def missing_count (parentRunIds : Option (List String))
    (split_contents : List (String × List String)) : Option ℕ :=
  match parentRunIds with
  | none => none
  | some runs =>
    let all_ids : Finset String := runs.toFinset
    let all_ids_in_splits : Finset String :=
      split_contents.foldl (fun acc e => acc ∪ e.2.toFinset) ∅
    some ((all_ids_in_splits \ all_ids).card)

/-- Python's built-in `round` on an exact value: round half to even. -/
def pyRound (q : ℚ) : ℤ :=
  if q - ⌊q⌋ < 1 / 2 then ⌊q⌋
  else if 1 / 2 < q - ⌊q⌋ then ⌊q⌋ + 1
  else if ⌊q⌋ % 2 = 0 then ⌊q⌋ else ⌊q⌋ + 1

/-- `round(len(valid_ids) * split.percentage)` as a slice length
(non-negative for the percentages the model admits, which are in
`[0, 1]`). -/
def splitSize (n : ℕ) (p : ℚ) : ℕ := (pyRound ((n : ℚ) * p)).toNat

/-- The `filter` step of `build_split_contents`: keep the ids of the runs
accepted by the dataset filter, in enumeration order. -/
def valid_run_ids (runIds : List String) (filt : String → Bool) : List String :=
  runIds.filter filt

/-- The slicing loop of `build_split_contents`: every split except the
last receives `valid_ids[start_idx : start_idx + split_size]` and
advances the cursor by `split_size`; the last split receives
`valid_ids[start_idx:]`. Produces the sequence of dict insertions in
loop order. -/
def buildSlices (n : ℕ) (ids : List String) :
    List DatasetSplitDefinition → ℕ → List (String × List String)
  | [], _ => []
  | [s], start => [(s.name, ids.drop start)]
  | s :: s' :: rest, start =>
    (s.name, (ids.drop start).take (splitSize n s.percentage)) ::
      buildSlices n ids (s' :: rest) (start + splitSize n s.percentage)

/-- Python dict assignment `d[k] = v`: overwrite the value in place when
the key is present, append the binding otherwise. -/
def dinsert : List (String × List String) → String → List String →
    List (String × List String)
  | [], k, v => [(k, v)]
  | e :: rest, k, v =>
    if e.1 = k then (e.1, v) :: rest else e :: dinsert rest k v

/-- Build a Python dict from a sequence of assignments. -/
def ddict (assignments : List (String × List String)) :
    List (String × List String) :=
  assignments.foldl (fun d e => dinsert d e.1 e.2) []

/-- Python dict lookup `d[k]` (keys of a built dict are unique). -/
def dlookup : List (String × List String) → String → Option (List String)
  | [], _ => none
  | e :: rest, k => if e.1 = k then some e.2 else dlookup rest k

/-- `DatasetSplit.build_split_contents`, applied after the shuffle: `ids`
is the shuffled list of filtered run ids, and the result is the
`split_contents` dict. -/
def build_split_contents (ids : List String)
    (splits : List DatasetSplitDefinition) : List (String × List String) :=
  ddict (buildSlices ids.length ids splits 0)

/-- The cumulative number of items consumed by a run of non-last splits:
the sum of their rounded sizes. -/
def sizeSum (n : ℕ) (l : List DatasetSplitDefinition) : ℕ :=
  (l.map (fun s => splitSize n s.percentage)).sum

/-- The slices assigned to a run of splits that are all followed by a
further split (so none of them is the last): each receives
`valid_ids[start : start + split_size]`. -/
def nonLast (n : ℕ) (ids : List String) :
    List DatasetSplitDefinition → ℕ → List (String × List String)
  | [], _ => []
  | s :: rest, start =>
    (s.name, (ids.drop start).take (splitSize n s.percentage)) ::
      nonLast n ids rest (start + splitSize n s.percentage)

/-- The value held by a Python dict after a sequence of assignments is
the value of the LAST assignment to the key, when any. -/
def lastBinding : List (String × List String) → String → Option (List String)
  | [], _ => none
  | e :: rest, k =>
    match lastBinding rest k with
    | some v => some v
    | none => if e.1 = k then some e.2 else none

/-- Claim C3: for every TaskOutputRating (overall value and every
requirement rating), validation accepts exactly the type-specific legal
set: five_star exactly the integral values 1–5, pass_fail exactly
{0.0, 1.0}, pass_fail_critical exactly {-1.0, 0.0, 1.0}, and custom
accepts any value; `validate_rating` applies these checks to the overall
value (when present) and to every requirement rating. -/
theorem rating_legal_sets :
    (∀ v : Option ℚ, validate_rating_value .five_star v = true ↔
       ∃ n : ℤ, v = some (n : ℚ) ∧ 1 ≤ n ∧ n ≤ 5) ∧
    (∀ v : Option ℚ, validate_rating_value .pass_fail v = true ↔
       v = some 0 ∨ v = some 1) ∧
    (∀ v : Option ℚ, validate_rating_value .pass_fail_critical v = true ↔
       v = some (-1) ∨ v = some 0 ∨ v = some 1) ∧
    (∀ v : Option ℚ, validate_rating_value .custom v = true) ∧
    (∀ r : TaskOutputRating, r.validate_rating = true ↔
       ((∀ v, r.value = some v → validate_rating_value r.type (some v) = true) ∧
        ∀ e ∈ r.requirement_ratings,
          validate_rating_value e.2.type (some e.2.value) = true)) := by
  refine ⟨?_, ?_, ?_, ?_, ?_⟩
  · intro v
    cases v with
    | none => simp [validate_rating_value, validate_five_star]
    | some q =>
      simp only [validate_rating_value, validate_five_star, ratingIsInteger,
        Bool.and_eq_true, beq_iff_eq, decide_eq_true_eq, Option.some.injEq]
      constructor
      · rintro ⟨⟨hden, h1⟩, h5⟩
        have hq : (q.num : ℚ) = q := (Rat.den_eq_one_iff q).mp hden
        refine ⟨q.num, hq.symm, ?_, ?_⟩
        · rw [← hq] at h1; exact_mod_cast h1
        · rw [← hq] at h5; exact_mod_cast h5
      · rintro ⟨n, rfl, h1, h5⟩
        refine ⟨⟨Rat.den_intCast n, ?_⟩, ?_⟩
        · exact_mod_cast h1
        · exact_mod_cast h5
  · intro v
    cases v with
    | none => simp [validate_rating_value, validate_pass_fail]
    | some q =>
      simp only [validate_rating_value, validate_pass_fail, ratingIsInteger,
        Bool.and_eq_true, Bool.or_eq_true, beq_iff_eq, Option.some.injEq]
      constructor
      · rintro ⟨_, h⟩; exact h
      · rintro (rfl | rfl) <;> exact ⟨rfl, by norm_num⟩
  · intro v
    cases v with
    | none => simp [validate_rating_value, validate_pass_fail_critical]
    | some q =>
      simp only [validate_rating_value, validate_pass_fail_critical, ratingIsInteger,
        Bool.and_eq_true, Bool.or_eq_true, beq_iff_eq, Option.some.injEq]
      constructor
      · rintro ⟨_, h⟩; rcases h with (h | h) | h <;> simp [h]
      · rintro (rfl | rfl | rfl) <;> exact ⟨rfl, by norm_num⟩
  · intro v; rfl
  · intro r
    cases hv : r.value with
    | none =>
      simp [TaskOutputRating.validate_rating, hv, List.all_eq_true]
    | some q =>
      simp [TaskOutputRating.validate_rating, hv, List.all_eq_true]

/-- Witness for C3: the five_star rating 3.0 is accepted. -/
theorem rating_legal_sets_witness :
    validate_rating_value TaskOutputRatingType.five_star (some 3) = true :=
  (rating_legal_sets.1 (some 3)).mpr ⟨3, by norm_num, by norm_num, by norm_num⟩

/-- Claim C4 counterexample: a tag containing a tab — a whitespace
character — is accepted by `validate_tags`, although the claim says a
tag containing any whitespace is rejected; the code only rejects the
space character. -/
theorem tags_whitespace_cex :
    validate_tags ["a\tb"] = true ∧
    ("a\tb").data.any (fun c => c.isWhitespace) = true := by
  constructor <;> rfl

/-- Claim C4 (amended): constructing or mutating a TaskRun fails exactly
when some tag is empty or contains the space character U+0020 (other
whitespace such as tabs is accepted); `["a b"]` fails, `[""]` fails,
`["a_b", "c"]` succeeds. -/
theorem tags_space_only :
    (∀ tags : List String, validate_tags tags = true ↔
       ∀ t ∈ tags, t.data ≠ [] ∧ ' ' ∉ t.data) ∧
    validate_tags ["a b"] = false ∧
    validate_tags [""] = false ∧
    validate_tags ["a_b", "c"] = true := by
  refine ⟨?_, rfl, rfl, rfl⟩
  intro tags
  simp [validate_tags, List.all_eq_true, List.isEmpty_iff]

/-- Witness for C4 (amended): a single whitespace-free non-empty tag is
accepted. -/
theorem tags_space_only_witness : validate_tags ["x"] = true :=
  (tags_space_only.1 ["x"]).mpr (by decide)

/-- Claim C5: when every value of the incoming `requirement_ratings` map
is a raw number, each entry is rewritten to
`{value: number, type: five_star}`; a map whose values are already typed
rating objects is left unchanged. -/
theorem upgrade_old_format_migration :
    (∀ m : List (String × ReqRatingValue), (∀ e ∈ m, e.2.isRaw = true) →
       upgrade_old_format m =
         m.map (fun e =>
           match e.2 with
           | .raw v => (e.1, ReqRatingValue.typed ⟨v, TaskOutputRatingType.five_star⟩)
           | t => (e.1, t))) ∧
    (∀ m : List (String × ReqRatingValue), (∀ e ∈ m, e.2.isRaw = false) →
       upgrade_old_format m = m) := by
  constructor
  · intro m hm
    cases m with
    | nil => rfl
    | cons e rest =>
      have hall : (e :: rest).all (fun x => x.2.isRaw) = true :=
        List.all_eq_true.mpr hm
      simp [upgrade_old_format, hall]
  · intro m hm
    cases m with
    | nil => rfl
    | cons e rest =>
      have hhead : e.2.isRaw = false := hm e (by simp)
      simp [upgrade_old_format, hhead]

/-- Witness for C5: the spec's example `{"r1": 3.0, "r2": 5.0}` becomes
two typed five_star ratings. -/
theorem upgrade_old_format_migration_witness :
    upgrade_old_format [("r1", ReqRatingValue.raw 3), ("r2", ReqRatingValue.raw 5)] =
      [("r1", ReqRatingValue.typed ⟨3, TaskOutputRatingType.five_star⟩),
       ("r2", ReqRatingValue.typed ⟨5, TaskOutputRatingType.five_star⟩)] := by
  have h := upgrade_old_format_migration.1
      [("r1", ReqRatingValue.raw 3), ("r2", ReqRatingValue.raw 5)] (by decide)
  simpa using h

lemma isclose_true_iff (a b : ℚ) :
    isclose a b = true ↔ |a - b| ≤ 1 / 1000000000 * max |a| |b| := by
  simp [isclose]

lemma isclose_false_iff (a b : ℚ) :
    isclose a b = false ↔ ¬(|a - b| ≤ 1 / 1000000000 * max |a| |b|) := by
  simp [isclose]

/-- Claim C6: a DatasetSplit's percentages are accepted exactly when
their sum is 1.0 up to `math.isclose` with relative tolerance 1e-9:
sums of 0.99 or 1.01 fail, sums of 1.0 ± 1e-9 succeed, and a mutation
of the splits list succeeds exactly when the new list passes the same
check. -/
theorem split_percentage_tolerance :
    (∀ splits : List DatasetSplitDefinition,
       validate_split_percentages splits = true ↔
         |(splits.map (fun s => s.percentage)).sum - 1| ≤
           1 / 1000000000 * max |(splits.map (fun s => s.percentage)).sum| 1) ∧
    validate_split_percentages [⟨"a", 99/100⟩] = false ∧
    validate_split_percentages [⟨"a", 1/2⟩, ⟨"b", 51/100⟩] = false ∧
    validate_split_percentages [⟨"a", 1/2⟩, ⟨"b", 1/2 + 1/1000000000⟩] = true ∧
    validate_split_percentages [⟨"a", 1/2⟩, ⟨"b", 1/2 - 1/1000000000⟩] = true ∧
    (∀ splits : List DatasetSplitDefinition,
       mutate_splits splits = some splits ↔
         validate_split_percentages splits = true) := by
  refine ⟨?_, ?_, ?_, ?_, ?_, ?_⟩
  · intro splits
    simp [validate_split_percentages, isclose]
  · simp only [validate_split_percentages, List.map_cons, List.map_nil,
      List.sum_cons, List.sum_nil, add_zero, isclose_false_iff]
    norm_num [abs, max_def]
  · simp only [validate_split_percentages, List.map_cons, List.map_nil,
      List.sum_cons, List.sum_nil, add_zero, isclose_false_iff]
    norm_num [abs, max_def]
  · simp only [validate_split_percentages, List.map_cons, List.map_nil,
      List.sum_cons, List.sum_nil, add_zero, isclose_true_iff]
    norm_num [abs, max_def]
  · simp only [validate_split_percentages, List.map_cons, List.map_nil,
      List.sum_cons, List.sum_nil, add_zero, isclose_true_iff]
    norm_num [abs, max_def]
  · intro splits
    by_cases h : validate_split_percentages splits = true <;>
      simp [mutate_splits, h]

/-- Witness for C6: the single split `[("all", 1.0)]` is accepted. -/
theorem split_percentage_tolerance_witness :
    validate_split_percentages [⟨"all", 1⟩] = true :=
  (split_percentage_tolerance.1 [⟨"all", 1⟩]).mpr (by norm_num)

/-- Claim C7: a TaskRun passes the repair validator exactly when
`repair_instructions` and `repaired_output` are both absent or both
present with the repaired output carrying no rating; each of the three
violating shapes is rejected. -/
theorem repair_pairing :
    (∀ (ri : Option String) (ro : Option TaskOutput),
       validate_repaired_output ri ro = true ↔
         ((ri = none ∧ ro = none) ∨
          (∃ s o, ri = some s ∧ ro = some o ∧ o.rating = none))) ∧
    (∀ o : TaskOutput, validate_repaired_output none (some o) = false) ∧
    (∀ (s : String) (o : TaskOutput) (r : TaskOutputRating),
       validate_repaired_output (some s) (some ⟨o.output, some r⟩) = false) ∧
    (∀ s : String, validate_repaired_output (some s) none = false) := by
  refine ⟨?_, ?_, ?_, ?_⟩
  · intro ri ro
    cases ri <;> cases ro <;>
      simp [validate_repaired_output, Option.isNone_iff_eq_none]
  · intro o; simp [validate_repaired_output]
  · intro s o r; simp [validate_repaired_output]
  · intro s; simp [validate_repaired_output]

/-- Witness for C7: both repair fields present, with an unrated repaired
output, is accepted. -/
theorem repair_pairing_witness :
    validate_repaired_output (some ("fix")) (some ⟨"out", none⟩) = true :=
  (repair_pairing.1 (some ("fix")) (some ⟨"out", none⟩)).mpr
    (Or.inr ⟨"fix", ⟨"out", none⟩, rfl, rfl, rfl⟩)

/-- Claim C2: for a TaskRun whose parent task is resolvable and declares
an input/output schema, the expensive schema validation runs on a
validation pass if and only if the current input (respectively
output.output) differs by string equality from the cached last-validated
value; construction-from-storage marks the current values validated
without checks, and a successful pass records the value so an unchanged
repeat pass performs no schema validation while a changed value
re-validates (the iff applied to the changed state). -/
theorem schema_validation_cache :
    ∀ (t : TaskSchemas) (chkI chkO : String → Bool) (r : RunState),
      t.input_json_schema = some chkI →
      t.output_json_schema = some chkO →
      (validate_input_format true (some t) r =
         some ({r with lastValInput := some r.input}, false)) ∧
      (∀ r' ran, validate_input_format false (some t) r = some (r', ran) →
         (ran = true ↔ r.lastValInput ≠ some r.input)) ∧
      (∀ r' ran, validate_input_format false (some t) r = some (r', ran) →
         validate_input_format false (some t) r' = some (r', false)) ∧
      (validate_output_format true (some t) r =
         some ({r with lastValOutput := some r.output.output}, false)) ∧
      (∀ r' ran, validate_output_format false (some t) r = some (r', ran) →
         (ran = true ↔ r.lastValOutput ≠ some r.output.output)) ∧
      (∀ r' ran, validate_output_format false (some t) r = some (r', ran) →
         validate_output_format false (some t) r' = some (r', false)) := by
  intro t chkI chkO r hI hO
  refine ⟨?_, ?_, ?_, ?_, ?_, ?_⟩
  · simp [validate_input_format]
  · intro r' ran h
    by_cases hc : r.lastValInput = some r.input
    · simp [validate_input_format, hc] at h
      simp [← h.2, hc]
    · simp [validate_input_format, hc, hI] at h
      by_cases hchk : chkI r.input = true
      · simp [hchk] at h
        simp [← h.2, hc]
      · simp [hchk] at h
  · intro r' ran h
    by_cases hc : r.lastValInput = some r.input
    · simp [validate_input_format, hc] at h
      simp [validate_input_format, ← h.1, hc]
    · simp [validate_input_format, hc, hI] at h
      by_cases hchk : chkI r.input = true
      · simp [hchk] at h
        simp [validate_input_format, ← h.1]
      · simp [hchk] at h
  · simp [validate_output_format]
  · intro r' ran h
    by_cases hc : r.lastValOutput = some r.output.output
    · simp [validate_output_format, hc] at h
      simp [← h.2, hc]
    · simp [validate_output_format, hc, hO] at h
      by_cases hchk : chkO r.output.output = true
      · simp [hchk] at h
        simp [← h.2, hc]
      · simp [hchk] at h
  · intro r' ran h
    by_cases hc : r.lastValOutput = some r.output.output
    · simp [validate_output_format, hc] at h
      simp [validate_output_format, ← h.1, hc]
    · simp [validate_output_format, hc, hO] at h
      by_cases hchk : chkO r.output.output = true
      · simp [hchk] at h
        simp [validate_output_format, ← h.1]
      · simp [hchk] at h

/-- Witness for C2: loading a run from storage marks its input validated
without running the schema check. -/
theorem schema_validation_cache_witness :
    validate_input_format true
        (some ⟨some (fun _ => true), some (fun _ => true)⟩)
        ⟨"i", ⟨"o", none⟩, none, none⟩ =
      some (⟨"i", ⟨"o", none⟩, some ("i"), none⟩, false) :=
  (schema_validation_cache ⟨some (fun _ => true), some (fun _ => true)⟩
      (fun _ => true) (fun _ => true) ⟨"i", ⟨"o", none⟩, none, none⟩ rfl rfl).1

lemma list_all_congr {α : Type} {l : List α} {p q : α → Bool}
    (h : ∀ a ∈ l, p a = q a) : l.all p = l.all q := by
  induction l with
  | nil => rfl
  | cons a l ih =>
    simp only [List.all_cons, h a (by simp)]
    rw [ih (fun x hx => h x (by simp [hx]))]

lemma plookup_cons_ne {k name : String} {v : PropVal}
    {props : List (String × PropVal)} (hne : name ≠ k) :
    plookup ((name, v) :: props) k = plookup props k := by
  simp [plookup, hne]

/-- Claim C8: DataSource construction fails when a registered property is
present with the wrong value type, when a property required for the
source type is absent, when a property forbidden for the source type is
present, or when any property value is the empty string; unregistered
properties are ignored by the registry checks. The spec's three concrete
examples behave as stated. -/
theorem data_source_property_rules :
    validateDataSource .human [] = false ∧
    validateDataSource .human [("model_name", PropVal.vstr ("x"))] = false ∧
    validateDataSource .synthetic
      [("model_name", PropVal.vstr ("x")), ("model_provider", PropVal.vstr ("p")),
       ("adapter_name", PropVal.vstr ("a"))] = true ∧
    (∀ t props prop v, prop ∈ data_source_properties →
       plookup props prop.name = some v → propTypeMatches prop.type v = false →
       validateDataSource t props = false) ∧
    (∀ t props prop, prop ∈ data_source_properties →
       prop.required_for.contains t = true → plookup props prop.name = none →
       validateDataSource t props = false) ∧
    (∀ t props prop, prop ∈ data_source_properties →
       prop.required_for.contains t = false →
       prop.not_allowed_for.contains t = true →
       (plookup props prop.name).isSome = true →
       validateDataSource t props = false) ∧
    (∀ props k, (k, PropVal.vstr ("")) ∈ props →
       ∀ t, validateDataSource t props = false) ∧
    (∀ t props name v,
       (∀ prop ∈ data_source_properties, prop.name ≠ name) →
       validate_no_empty_properties [(name, v)] = true →
       validateDataSource t ((name, v) :: props) = validateDataSource t props) := by
  refine ⟨by rfl, by rfl, by rfl, ?_, ?_, ?_, ?_, ?_⟩
  · intro t props prop v hp hl hm
    cases hval : validateDataSource t props with
    | false => rfl
    | true =>
      exfalso
      have h1 : validate_properties t props = true := by
        simp only [validateDataSource, Bool.and_eq_true] at hval
        exact hval.1
      have h2 := List.all_eq_true.mp h1 prop hp
      rw [hl] at h2
      simp only [Bool.and_eq_true] at h2
      rw [hm] at h2
      exact Bool.false_ne_true h2.1
  · intro t props prop hp hreq hl
    cases hval : validateDataSource t props with
    | false => rfl
    | true =>
      exfalso
      have h1 : validate_properties t props = true := by
        simp only [validateDataSource, Bool.and_eq_true] at hval
        exact hval.1
      have h2 := List.all_eq_true.mp h1 prop hp
      rw [hl, hreq] at h2
      simp at h2
  · intro t props prop hp hreq hforb hpres
    cases hval : validateDataSource t props with
    | false => rfl
    | true =>
      exfalso
      have h1 : validate_properties t props = true := by
        simp only [validateDataSource, Bool.and_eq_true] at hval
        exact hval.1
      have h2 := List.all_eq_true.mp h1 prop hp
      rw [hreq, hforb, hpres] at h2
      simp at h2
  · intro props k hmem t
    cases hval : validateDataSource t props with
    | false => rfl
    | true =>
      exfalso
      have h1 : validate_no_empty_properties props = true := by
        simp only [validateDataSource, Bool.and_eq_true] at hval
        exact hval.2
      have h2 := List.all_eq_true.mp h1 (k, PropVal.vstr ("")) hmem
      simp at h2
  · intro t props name v hn hv
    have hpl : ∀ p ∈ data_source_properties,
        plookup ((name, v) :: props) p.name = plookup props p.name :=
      fun p hp => plookup_cons_ne (Ne.symm (hn p hp))
    have e1 : validate_properties t ((name, v) :: props) =
        validate_properties t props := by
      unfold validate_properties
      exact list_all_congr (fun p hp => by rw [hpl p hp])
    have e2 : validate_no_empty_properties ((name, v) :: props) =
        validate_no_empty_properties props := by
      unfold validate_no_empty_properties
      rw [List.all_cons]
      have hh : (match ((name, v) : String × PropVal).2 with
          | PropVal.vstr s => !s.data.isEmpty
          | _ => true) = true := by
        simpa [validate_no_empty_properties] using hv
      rw [hh, Bool.true_and]
    simp only [validateDataSource]
    rw [e1, e2]

/-- Witness for C8: an unregistered integer property leaves validation of
a synthetic data source unchanged (and it succeeds). -/
theorem data_source_property_rules_witness :
    validateDataSource .synthetic
      [("note", PropVal.vint 5),
       ("model_name", PropVal.vstr ("x")), ("model_provider", PropVal.vstr ("p")),
       ("adapter_name", PropVal.vstr ("a"))] =
    validateDataSource .synthetic
      [("model_name", PropVal.vstr ("x")), ("model_provider", PropVal.vstr ("p")),
       ("adapter_name", PropVal.vstr ("a"))] :=
  data_source_property_rules.2.2.2.2.2.2.2 DataSourceType.synthetic
    [("model_name", PropVal.vstr ("x")), ("model_provider", PropVal.vstr ("p")),
     ("adapter_name", PropVal.vstr ("a"))]
    ("note") (PropVal.vint 5) (by decide) (by rfl)

lemma mem_foldl_union (c : List (String × List String)) (acc : Finset String)
    (x : String) :
    x ∈ c.foldl (fun a e => a ∪ e.2.toFinset) acc ↔
      x ∈ acc ∨ ∃ e ∈ c, x ∈ e.2 := by
  induction c generalizing acc with
  | nil => simp
  | cons e rest ih =>
    rw [List.foldl_cons, ih]
    simp only [Finset.mem_union, List.mem_toFinset, List.mem_cons]
    constructor
    · rintro ((h | h) | ⟨f, hf, hx⟩)
      · exact Or.inl h
      · exact Or.inr ⟨e, Or.inl rfl, h⟩
      · exact Or.inr ⟨f, Or.inr hf, hx⟩
    · rintro (h | ⟨f, (rfl | hf), hx⟩)
      · exact Or.inl (Or.inl h)
      · exact Or.inl (Or.inr hx)
      · exact Or.inr ⟨f, hf, hx⟩

/-- Claim C9: `missing_count` fails when the split has no resolvable
parent task, and otherwise returns the number of distinct run ids that
appear in some split's contents but are absent from the parent task's
current run ids; the spec's {A,B,C} vs {A,B} example reports 1. -/
theorem missing_count_drift :
    (∀ c, missing_count none c = none) ∧
    (∀ runs c, ∃ S : Finset String,
        missing_count (some runs) c = some S.card ∧
        ∀ x, x ∈ S ↔ ((∃ e ∈ c, x ∈ e.2) ∧ x ∉ runs)) ∧
    missing_count (some ["A", "B"]) [("all", ["A", "B", "C"])] = some 1 := by
  refine ⟨fun c => rfl, ?_, ?_⟩
  · intro runs c
    refine ⟨(c.foldl (fun a e => a ∪ e.2.toFinset) ∅) \ runs.toFinset, by rfl, ?_⟩
    intro x
    simp [Finset.mem_sdiff, mem_foldl_union, List.mem_toFinset]
  · rfl

/-- Witness for C9: a split with no resolvable parent task fails. -/
theorem missing_count_drift_witness :
    missing_count none [("all", ["A"])] = none :=
  missing_count_drift.1 [("all", ["A"])]

lemma buildSlices_flatten (n : ℕ) (ids : List String) :
    ∀ (splits : List DatasetSplitDefinition) (start : ℕ), splits ≠ [] →
      ((buildSlices n ids splits start).map Prod.snd).flatten = ids.drop start
  | [], _, h => absurd rfl h
  | [s], start, _ => by simp [buildSlices]
  | s :: s' :: rest, start, _ => by
    simp only [buildSlices, List.map_cons, List.flatten_cons]
    rw [buildSlices_flatten n ids (s' :: rest) (start + splitSize n s.percentage)
      (by simp)]
    conv_rhs =>
      rw [← List.take_append_drop (splitSize n s.percentage) (ids.drop start)]
    rw [List.drop_drop]

lemma buildSlices_keys (n : ℕ) (ids : List String) :
    ∀ (splits : List DatasetSplitDefinition) (start : ℕ),
      (buildSlices n ids splits start).map Prod.fst =
        splits.map (fun s => s.name)
  | [], _ => rfl
  | [_], _ => rfl
  | s :: s' :: rest, start => by
    simp only [buildSlices, List.map_cons]
    rw [buildSlices_keys n ids (s' :: rest)
      (start + splitSize n s.percentage)]
    simp

lemma dinsert_of_not_mem :
    ∀ (d : List (String × List String)) {k : String} {v : List String},
      k ∉ d.map Prod.fst → dinsert d k v = d ++ [(k, v)]
  | [], _, _, _ => rfl
  | e :: rest, k, v, h => by
    have h1 : ¬(e.1 = k) := by
      intro hh
      exact h (by simp [hh])
    have h2 : k ∉ rest.map Prod.fst := by
      intro hh
      exact h (by simp [hh])
    simp [dinsert, h1, dinsert_of_not_mem rest h2]

lemma foldl_dinsert (l : List (String × List String)) :
    ∀ acc, ((acc ++ l).map Prod.fst).Nodup →
      l.foldl (fun d e => dinsert d e.1 e.2) acc = acc ++ l := by
  induction l with
  | nil => intro acc _; simp
  | cons e rest ih =>
    intro acc h
    have hd : List.Disjoint (acc.map Prod.fst) ((e :: rest).map Prod.fst) :=
      List.disjoint_of_nodup_append (by simpa [List.map_append] using h)
    have hk : e.1 ∉ acc.map Prod.fst := fun hmem => hd hmem (by simp)
    rw [List.foldl_cons, dinsert_of_not_mem acc hk,
      ih (acc ++ [e]) (by simpa [List.append_assoc] using h)]
    simp

lemma ddict_nodup {l : List (String × List String)}
    (h : (l.map Prod.fst).Nodup) : ddict l = l := by
  simpa [ddict] using foldl_dinsert l [] (by simpa using h)

lemma dlookup_append_of_not_mem :
    ∀ (l₁ l₂ : List (String × List String)) {k : String},
      k ∉ l₁.map Prod.fst → dlookup (l₁ ++ l₂) k = dlookup l₂ k
  | [], _, _, _ => rfl
  | e :: rest, l₂, k, h => by
    have h1 : ¬(e.1 = k) := by
      intro hh
      exact h (by simp [hh])
    have h2 : k ∉ rest.map Prod.fst := by
      intro hh
      exact h (by simp [hh])
    simp [dlookup, h1, dlookup_append_of_not_mem rest l₂ h2]

lemma dlookup_dinsert :
    ∀ (d : List (String × List String)) (k : String) (v : List String)
      (k' : String),
      dlookup (dinsert d k v) k' = if k = k' then some v else dlookup d k'
  | [], k, v, k' => by
    by_cases h : k = k' <;> simp [dinsert, dlookup, h]
  | e :: rest, k, v, k' => by
    by_cases h1 : e.1 = k
    · by_cases h2 : k = k'
      · simp [dinsert, dlookup, h1, h2]
      · have h3 : ¬(e.1 = k') := fun hh => h2 (h1 ▸ hh)
        simp [dinsert, dlookup, h1, h2, h3]
    · by_cases h2 : e.1 = k'
      · have h3 : ¬(k = k') := fun hh => h1 (hh ▸ h2)
        have h4 : ¬(k' = k) := fun hh => h3 hh.symm
        simp [dinsert, dlookup, h1, h2, h3, h4]
      · simp [dinsert, dlookup, h1, h2, dlookup_dinsert rest k v k']

lemma dlookup_foldl :
    ∀ (l : List (String × List String)) (acc : List (String × List String))
      (k : String),
      dlookup (l.foldl (fun d e => dinsert d e.1 e.2) acc) k =
        (match lastBinding l k with
         | some v => some v
         | none => dlookup acc k) := by
  intro l
  induction l with
  | nil => intro acc k; simp [lastBinding]
  | cons e rest ih =>
    intro acc k
    rw [List.foldl_cons, ih]
    cases hlb : lastBinding rest k with
    | some v => simp [lastBinding, hlb]
    | none =>
      simp only [lastBinding, hlb, dlookup_dinsert]
      by_cases he : e.1 = k <;> simp [he]

lemma nonLast_keys (n : ℕ) (ids : List String) :
    ∀ (pre : List DatasetSplitDefinition) (start : ℕ),
      (nonLast n ids pre start).map Prod.fst = pre.map (fun s => s.name)
  | [], _ => rfl
  | s :: rest, start => by
    simp only [nonLast, List.map_cons]
    rw [nonLast_keys n ids rest (start + splitSize n s.percentage)]

lemma buildSlices_append (n : ℕ) (ids : List String) :
    ∀ (pre rest : List DatasetSplitDefinition) (start : ℕ), rest ≠ [] →
      buildSlices n ids (pre ++ rest) start =
        nonLast n ids pre start ++
          buildSlices n ids rest (start + sizeSum n pre) := by
  intro pre
  induction pre with
  | nil => intro rest start _; simp [nonLast, sizeSum]
  | cons s pre ih =>
    intro rest start h
    have hne : pre ++ rest ≠ [] := by
      cases rest with
      | nil => exact absurd rfl h
      | cons a l => simp
    cases hpr : pre ++ rest with
    | nil => exact absurd hpr hne
    | cons a l =>
      rw [show (s :: pre) ++ rest = s :: (pre ++ rest) from rfl, hpr]
      simp only [buildSlices]
      rw [← hpr, ih rest _ h]
      simp [nonLast, sizeSum, Nat.add_assoc]

lemma count_flatten_eq (x : String) :
    ∀ L : List (List String), L.flatten.count x = (L.map (List.count x)).sum := by
  intro L
  induction L with
  | nil => rfl
  | cons l rest ih => simp [List.count_append, ih]

lemma countP_mem_of_sum_zero (x : String) :
    ∀ L : List (List String), (L.map (List.count x)).sum = 0 →
      L.countP (fun l => decide (x ∈ l)) = 0 := by
  intro L
  induction L with
  | nil => intro _; rfl
  | cons l rest ih =>
    intro h
    simp only [List.map_cons, List.sum_cons, Nat.add_eq_zero] at h
    have hx : x ∉ l := List.count_eq_zero.mp h.1
    rw [List.countP_cons]
    simp [hx, ih h.2]

lemma countP_mem_of_sum_one (x : String) :
    ∀ L : List (List String), (L.map (List.count x)).sum = 1 →
      L.countP (fun l => decide (x ∈ l)) = 1 := by
  intro L
  induction L with
  | nil => intro h; simp at h
  | cons l rest ih =>
    intro h
    simp only [List.map_cons, List.sum_cons] at h
    rw [List.countP_cons]
    cases hc : l.count x with
    | zero =>
      have hx : x ∉ l := List.count_eq_zero.mp hc
      rw [hc] at h
      simp [hx, ih (by omega)]
    | succ m =>
      have hx : x ∈ l := by
        have : 0 < l.count x := by omega
        exact List.count_pos_iff.mp this
      have h1 : (rest.map (List.count x)).sum = 0 := by omega
      simp [hx, countP_mem_of_sum_zero x rest h1]

lemma pyRound_intCast (m : ℤ) : pyRound ((m : ℤ) : ℚ) = m := by
  unfold pyRound
  rw [Int.floor_intCast]
  norm_num

lemma splitSize_zero (n : ℕ) : splitSize n 0 = 0 := by
  rw [splitSize, mul_zero, show (0 : ℚ) = ((0 : ℤ) : ℚ) by norm_num,
    pyRound_intCast]
  rfl

lemma splitSize_three_half : splitSize 3 (1 / 2) = 2 := by
  have hf : ⌊(3 : ℚ) / 2⌋ = 1 := by
    rw [Int.floor_eq_iff]
    norm_num
  rw [splitSize, show ((3 : ℕ) : ℚ) * (1 / 2) = 3 / 2 by norm_num]
  unfold pyRound
  rw [hf]
  norm_num
  rfl

lemma splitSize_four_half : splitSize 4 (1 / 2) = 2 := by
  rw [splitSize, show ((4 : ℕ) : ℚ) * (1 / 2) = ((2 : ℤ) : ℚ) by norm_num,
    pyRound_intCast]
  rfl

/-- Claim C1 (amended): for every task, filter, shuffle ordering of the
filtered run ids, and non-empty list of split definitions with pairwise
distinct names, build_split_contents assigns to each non-last definition
the consecutive slice `ids[start : start + round(totalCount ×
percentage)]` — exactly `round(totalCount × percentage)` ids whenever
the cumulative rounded sizes fit within the total count (the slice is
truncated otherwise) — assigns all remaining ids to the last
definition's name, and every filtered run id appears in exactly one
split's list, with no duplicates and no omissions. -/
theorem build_split_partition :
    ∀ (runIds : List String) (filt : String → Bool) (ids : List String)
      (splits : List DatasetSplitDefinition),
      ids.Perm (valid_run_ids runIds filt) →
      splits ≠ [] →
      ((splits.map (fun s => s.name)).Nodup) →
      (build_split_contents ids splits = buildSlices ids.length ids splits 0) ∧
      (((build_split_contents ids splits).map Prod.snd).flatten = ids) ∧
      (ids.Nodup → ∀ x ∈ ids,
         (build_split_contents ids splits).countP
           (fun e => decide (x ∈ e.2)) = 1) ∧
      (∀ pre s post, splits = pre ++ s :: post → post ≠ [] →
         dlookup (build_split_contents ids splits) s.name =
           some ((ids.drop (sizeSum ids.length pre)).take
             (splitSize ids.length s.percentage)) ∧
         (sizeSum ids.length pre + splitSize ids.length s.percentage ≤
             ids.length →
           ((ids.drop (sizeSum ids.length pre)).take
             (splitSize ids.length s.percentage)).length =
             splitSize ids.length s.percentage)) ∧
      (∀ pre s, splits = pre ++ [s] →
         dlookup (build_split_contents ids splits) s.name =
           some (ids.drop (sizeSum ids.length pre))) := by
  intro runIds filt ids splits _ hne hnodup
  have hkeys : (buildSlices ids.length ids splits 0).map Prod.fst =
      splits.map (fun s => s.name) := buildSlices_keys _ _ _ _
  have h1 : build_split_contents ids splits =
      buildSlices ids.length ids splits 0 := by
    simp only [build_split_contents]
    exact ddict_nodup (by rw [hkeys]; exact hnodup)
  have h2 : ((build_split_contents ids splits).map Prod.snd).flatten = ids := by
    rw [h1, buildSlices_flatten ids.length ids splits 0 hne, List.drop_zero]
  refine ⟨h1, h2, ?_, ?_, ?_⟩
  · intro hnd x hx
    have hcount1 : ids.count x = 1 := List.count_eq_one_of_mem hnd hx
    have hsum : (((build_split_contents ids splits).map Prod.snd).map
        (List.count x)).sum = 1 := by
      rw [← count_flatten_eq, h2]
      exact hcount1
    have h3 := countP_mem_of_sum_one x
      ((build_split_contents ids splits).map Prod.snd) hsum
    rw [List.countP_map] at h3
    exact h3
  · intro pre s post hsp hpost
    have hnotpre : s.name ∉ pre.map (fun q => q.name) := by
      intro hmem
      rw [hsp] at hnodup
      have hd := List.disjoint_of_nodup_append (by simpa using hnodup)
      exact hd hmem (by simp)
    constructor
    · rw [h1, hsp, buildSlices_append ids.length ids pre (s :: post) 0
        (by simp)]
      rw [dlookup_append_of_not_mem _ _ (by rw [nonLast_keys]; exact hnotpre)]
      cases post with
      | nil => exact absurd rfl hpost
      | cons a l =>
        simp [buildSlices, dlookup, Nat.zero_add]
    · intro hfit
      rw [List.length_take, List.length_drop]
      omega
  · intro pre s hsp
    have hnotpre : s.name ∉ pre.map (fun q => q.name) := by
      intro hmem
      rw [hsp] at hnodup
      have hd := List.disjoint_of_nodup_append (by simpa using hnodup)
      exact hd hmem (by simp)
    rw [h1, hsp, buildSlices_append ids.length ids pre [s] 0 (by simp)]
    rw [dlookup_append_of_not_mem _ _ (by rw [nonLast_keys]; exact hnotpre)]
    simp [buildSlices, dlookup, Nat.zero_add]

/-- Claim C1 counterexample: with three filtered ids and split
definitions [("x", 0.5), ("y", 0.5), ("z", 0.0)] — percentages summing
to 1.0 and names distinct — the non-last split "y" receives the single
id "c" although round(3 × 0.5) = 2: the cumulative rounded sizes exceed
the id count, the slice is truncated, and the claim's "exactly
round(totalCount × percentage) ids for every non-last split" fails. -/
theorem build_split_round_cex :
    ((1 : ℚ) / 2 + 1 / 2 + 0 = 1) ∧
    splitSize 3 (1 / 2) = 2 ∧
    build_split_contents ["a", "b", "c"]
        [⟨"x", 1 / 2⟩, ⟨"y", 1 / 2⟩, ⟨"z", 0⟩] =
      [("x", ["a", "b"]), ("y", ["c"]), ("z", [])] ∧
    (["c"] : List String).length ≠ splitSize 3 (1 / 2) := by
  refine ⟨by norm_num, splitSize_three_half, ?_, ?_⟩
  · norm_num [build_split_contents, buildSlices, splitSize_three_half,
      splitSize_zero, ddict, dinsert]
    decide
  · rw [splitSize_three_half]
    decide

/-- Witness for C1 (amended): ten filtered ids with splits
[("train", 0.8), ("test", 0.2)] — concatenating the two assigned lists
returns every id exactly once. -/
theorem build_split_partition_witness :
    ((build_split_contents ["i1", "i2", "i3"]
        [⟨"train", 1 / 2⟩, ⟨"test", 1 / 2⟩]).map Prod.snd).flatten =
      ["i1", "i2", "i3"] :=
  (build_split_partition ["i1", "i2", "i3"] (fun _ => true)
    ["i1", "i2", "i3"] [⟨"train", 1 / 2⟩, ⟨"test", 1 / 2⟩]
    (List.Perm.refl _) (List.cons_ne_nil _ _) (by simp)).2.1

/-- Claim C10: when two split definitions share a name, the dict keeps
only the later definition's slice under that name — in general the
looked-up value is the LAST assignment for each name — so with distinct
run ids the ids sliced for the earlier definition appear in no list of
the result, and the every-run-in-exactly-one-split guarantee needs
pairwise-distinct names. -/
theorem duplicate_split_names :
    (∀ (ids : List String) (splits : List DatasetSplitDefinition) (k : String),
       dlookup (build_split_contents ids splits) k =
         lastBinding (buildSlices ids.length ids splits 0) k) ∧
    (∀ (ids : List String) (k : String) (p q : ℚ),
       build_split_contents ids [⟨k, p⟩, ⟨k, q⟩] =
         [(k, ids.drop (splitSize ids.length p))]) ∧
    (∀ (ids : List String) (k : String) (p q : ℚ), ids.Nodup →
       ∀ x ∈ ids.take (splitSize ids.length p),
         ∀ e ∈ build_split_contents ids [⟨k, p⟩, ⟨k, q⟩], x ∉ e.2) := by
  have hpair : ∀ (ids : List String) (k : String) (p q : ℚ),
      build_split_contents ids [⟨k, p⟩, ⟨k, q⟩] =
        [(k, ids.drop (splitSize ids.length p))] := by
    intro ids k p q
    simp [build_split_contents, buildSlices, ddict, dinsert]
  refine ⟨?_, hpair, ?_⟩
  · intro ids splits k
    simp only [build_split_contents, ddict]
    rw [dlookup_foldl]
    cases lastBinding (buildSlices ids.length ids splits 0) k <;>
      simp [dlookup]
  · intro ids k p q hnd x hx e he hmem
    rw [hpair] at he
    simp only [List.mem_singleton] at he
    have hnd' : (ids.take (splitSize ids.length p) ++
        ids.drop (splitSize ids.length p)).Nodup := by
      rw [List.take_append_drop]
      exact hnd
    have hdisj := List.disjoint_of_nodup_append hnd'
    rw [he] at hmem
    exact hdisj hx hmem

/-- Witness for C10: ids a,b,c,d with duplicated split name "s" at 50/50
— the result keeps only the later slice [c, d]; the earlier slice's id
"a" is a filtered run id yet appears in no list of the result. -/
theorem duplicate_split_names_witness :
    build_split_contents ["a", "b", "c", "d"] [⟨"s", 1 / 2⟩, ⟨"s", 1 / 2⟩] =
      [("s", ["c", "d"])] ∧
    (("a") ∈ (["a", "b", "c", "d"] : List String)) ∧
    (∀ e ∈ build_split_contents ["a", "b", "c", "d"]
        [⟨"s", 1 / 2⟩, ⟨"s", 1 / 2⟩], ("a") ∉ e.2) := by
  have hsz : splitSize (List.length ["a", "b", "c", "d"]) (1 / 2) = 2 :=
    splitSize_four_half
  refine ⟨?_, by decide, ?_⟩
  · rw [duplicate_split_names.2.1 ["a", "b", "c", "d"] ("s") (1 / 2) (1 / 2),
      hsz]
    rfl
  · intro e he hmem
    refine duplicate_split_names.2.2 ["a", "b", "c", "d"] ("s") (1 / 2) (1 / 2)
      (by decide) ("a") ?_ e he hmem
    rw [hsz]
    decide

end Kiln
